import Mathlib

/-!
# badgermole: a shallow embedding of `main.go`

Go strings are byte sequences, so a `string` is embedded as a list of bytes and every
library routine the program calls on strings (`regexp`, `strings`, `net/url`, `fmt`) is
embedded at the byte level.  Go `int` values are embedded as `Int`; a run-time panic is
the `none` of an `Option`.
-/

namespace Badgermole

/-! ## Strings -/

/-- A Go `string`: an immutable sequence of bytes. -/
abbrev GoString := List UInt8

/-- The bytes of a string literal of the source (Go source text is UTF-8). -/
def str (s : String) : GoString := s.data.flatMap String.utf8EncodeChar

/-- The function `min` of `main.go`. -/
def min (x y : Int) : Int :=
  if x < y then x else y

/-- Go `len(s)` for a string. -/
def len (s : GoString) : Int := (s.length : Int)

/-- The slice expression `s[:hi]`; it panics (`none`) unless `0 ≤ hi ≤ len(s)`. -/
def sliceTo (s : GoString) (hi : Int) : Option GoString :=
  if 0 ≤ hi ∧ hi ≤ len s then some (s.take hi.toNat) else none

/-! ## `unicode/utf8` -/

/-- The rune `utf8.RuneError` (U+FFFD). -/
def RuneError : Nat := 0xFFFD

/-- The table `first` of `unicode/utf8`, by ranges of the lead byte: `0xF0` marks an ASCII
byte, `0xF1` an invalid lead byte; otherwise the low three bits are the length of the
encoding and the high four bits index `acceptRanges`. -/
def first (b : Nat) : Nat :=
  if b < 0x80 then 0xF0
  else if b < 0xC2 then 0xF1
  else if b < 0xE0 then 0x02
  else if b = 0xE0 then 0x13
  else if b < 0xED then 0x03
  else if b = 0xED then 0x23
  else if b < 0xF0 then 0x03
  else if b = 0xF0 then 0x34
  else if b < 0xF4 then 0x04
  else if b = 0xF4 then 0x44
  else 0xF1

/-- The table `acceptRanges` of `unicode/utf8`: the bounds `(lo, hi)` of the second byte. -/
def acceptRanges (i : Nat) : Nat × Nat :=
  match i with
  | 0 => (0x80, 0xBF)
  | 1 => (0xA0, 0xBF)
  | 2 => (0x80, 0x9F)
  | 3 => (0x90, 0xBF)
  | 4 => (0x80, 0x8F)
  | _ => (0, 0)

/-- The function `utf8.DecodeRuneInString`: the first rune of `s` and its width in bytes.
An invalid encoding gives `(RuneError, 1)`, the empty string `(RuneError, 0)`. -/
def DecodeRuneInString (s : GoString) : Nat × Nat :=
  match s with
  | [] => (RuneError, 0)
  | s0 :: t =>
    let x := first s0.toNat
    if x ≥ 0xF0 then
      (if x = 0xF0 then s0.toNat else RuneError, 1)
    else
      let sz := x &&& 7
      let accept := acceptRanges (x >>> 4)
      if s.length < sz then (RuneError, 1)
      else
        match t with
        | [] => (RuneError, 1)
        | s1 :: t1 =>
          if s1.toNat < accept.1 ∨ accept.2 < s1.toNat then (RuneError, 1)
          else if sz ≤ 2 then
            (((s0.toNat &&& 0x1F) <<< 6) ||| (s1.toNat &&& 0x3F), 2)
          else
            match t1 with
            | [] => (RuneError, 1)
            | s2 :: t2 =>
              if s2.toNat < 0x80 ∨ 0xBF < s2.toNat then (RuneError, 1)
              else if sz ≤ 3 then
                (((s0.toNat &&& 0x0F) <<< 12) ||| ((s1.toNat &&& 0x3F) <<< 6)
                  ||| (s2.toNat &&& 0x3F), 3)
              else
                match t2 with
                | [] => (RuneError, 1)
                | s3 :: _ =>
                  if s3.toNat < 0x80 ∨ 0xBF < s3.toNat then (RuneError, 1)
                  else
                    (((s0.toNat &&& 0x07) <<< 18) ||| ((s1.toNat &&& 0x3F) <<< 12)
                      ||| ((s2.toNat &&& 0x3F) <<< 6) ||| (s3.toNat &&& 0x3F), 4)

/-! ## `regexp` and `strings`, as far as `SanitizeName` uses them -/

/-- The character class of the pattern `[^a-zA-Z0-9-]`: the rune `r` is matched when it
is none of `a`-`z`, `A`-`Z`, `0`-`9`, `-`. -/
def matchesClass (r : Nat) : Bool :=
  !(decide (0x61 ≤ r ∧ r ≤ 0x7A) || decide (0x41 ≤ r ∧ r ≤ 0x5A)
    || decide (0x30 ≤ r ∧ r ≤ 0x39) || decide (r = 0x2D))

/-- The scan behind `ReplaceAllString`: `pending` counts the bytes still to come of the
rune being stepped over and `matched` says whether that rune belongs to a match.  At a
rune boundary the next rune is decoded as the matcher does (an invalid byte is the rune
U+FFFD of width 1); the bytes of a matched rune are dropped, all others are copied. -/
def replaceScan : Nat → Bool → GoString → GoString
  | _, _, [] => []
  | pending + 1, matched, b :: rest =>
    if matched then replaceScan pending matched rest
    else b :: replaceScan pending matched rest
  | 0, _, b :: rest =>
    let d := DecodeRuneInString (b :: rest)
    if matchesClass d.1 then replaceScan (d.2 - 1) true rest
    else b :: replaceScan (d.2 - 1) false rest

/-- The call `regexp.MustCompile("[^a-zA-Z0-9-]+").ReplaceAllString(src, "")`.  The
pattern is one character class under `+`, so its matches are the maximal runs of runes
outside `a-zA-Z0-9-`; each is replaced by the empty string. -/
def ReplaceAllString (src : GoString) : GoString :=
  replaceScan 0 false src

/-- The function `trimLeftByte` of package `strings`. -/
def trimLeftByte (s : GoString) (c : UInt8) : GoString :=
  s.dropWhile (fun b => b == c)

/-- The function `trimRightByte` of package `strings`. -/
def trimRightByte (s : GoString) (c : UInt8) : GoString :=
  (s.reverse.dropWhile (fun b => b == c)).reverse

/-- The call `strings.Trim(s, cutset)` for a cutset of one ASCII byte `c`, the only form
the program uses: `trimLeftByte(trimRightByte(s, c), c)`. -/
def Trim (s : GoString) (c : UInt8) : GoString :=
  trimLeftByte (trimRightByte s c) c

/-! ## Data model -/

/-- The struct `Commit`. -/
structure Commit where
  SHA : GoString
deriving DecidableEq

/-- The struct `Branch`. -/
structure Branch where
  Name : GoString
  Commit : Commit
deriving DecidableEq

/-- The method `Branch.SanitizeName`; `none` is a panic of the slice expression. -/
def Branch.SanitizeName (b : Branch) : Option GoString :=
  let sanitized := ReplaceAllString b.Name
  match sliceTo sanitized (min 32 (len sanitized)) with
  | none => none
  | some sanitized => some (Trim sanitized 0x2D)

/-! ## The sanitizer as the specification words it -/

/-- The characters of the class `[a-zA-Z0-9-]`, written out. -/
def allowedBytes : GoString :=
  str "abcdefghijklmnopqrstuvwxyzABCDEFGHIJKLMNOPQRSTUVWXYZ0123456789-"

/-- Step one of the specification: delete every character outside `[a-zA-Z0-9-]`,
keeping the others in order.  Every character outside the class is either an ASCII byte
that is not listed or a sequence of bytes above `0x7F`, so it goes byte by byte. -/
def deleteOutside (s : GoString) : GoString :=
  s.filter (fun b => decide (b ∈ allowedBytes))

/-- Step three of the specification: strip all leading and trailing hyphens. -/
def stripHyphens (s : GoString) : GoString :=
  ((s.dropWhile (fun b => b == 0x2D)).reverse.dropWhile (fun b => b == 0x2D)).reverse

/-- The three steps of the specification, in its order: delete, keep at most the first
32, strip hyphens. -/
def sanitizeSteps (name : GoString) : GoString :=
  stripHyphens ((deleteOutside name).take 32)

/-- What decoding gives at a lead byte above `0x7F`: a rune that the pattern matches, of
width at least one, whose further bytes are all above `0x7F`. -/
def HighRune (t : GoString) (d : Nat × Nat) : Prop :=
  matchesClass d.1 = true ∧ 1 ≤ d.2 ∧ ∀ b ∈ t.take (d.2 - 1), 0x80 ≤ b.toNat

/-- The struct `User`. -/
structure User where
  Login : GoString
  ID : Int
deriving DecidableEq

/-- The struct `Label`. -/
structure Label where
  ID : Int
  Name : GoString
deriving DecidableEq

/-- The struct `Repository`. -/
structure Repository where
  Name : GoString
  Owner : User
  IsFork : Bool
  DefaultBranch : GoString
deriving DecidableEq

/-- The struct `Object`. -/
structure Object where
  Ref : GoString
  SHA : GoString
  User : User
  Repository : Repository
deriving DecidableEq

/-- The struct `PullRequest`; a nil slice of labels is the empty list. -/
structure PullRequest where
  ID : Int
  Labels : List Label
  Number : Int
  State : GoString
  Title : GoString
  URL : GoString
  User : User
  MergeCommitSHA : GoString
  Head : Object
  Base : Object
deriving DecidableEq

/-- The struct `Comment`. -/
structure Comment where
  Id : GoString
  CommitId : GoString
  User : User
deriving DecidableEq

/-- The struct `CommentInput`. -/
structure CommentInput where
  Body : GoString
deriving DecidableEq

/-- The zero value `User{}`. -/
def User.zero : User := ⟨[], 0⟩

/-- The zero value `Repository{}`. -/
def Repository.zero : Repository := ⟨[], User.zero, false, []⟩

/-- The zero value `Object{}`. -/
def Object.zero : Object := ⟨[], [], User.zero, Repository.zero⟩

/-- The zero value `PullRequest{}`. -/
def PullRequest.zero : PullRequest :=
  ⟨0, [], 0, [], [], [], User.zero, [], Object.zero, Object.zero⟩

/-- The loop `for _, l := range r.Labels` of `PullRequest.ContainsLabel`, from the label
it has reached. -/
def PullRequest.ContainsLabel.loop (name : GoString) : List Label → Bool
  | [] => false
  | l :: ls => if l.Name = name then true else PullRequest.ContainsLabel.loop name ls

/-- The method `PullRequest.ContainsLabel`. -/
def PullRequest.ContainsLabel (r : PullRequest) (name : GoString) : Bool :=
  PullRequest.ContainsLabel.loop name r.Labels

/-- The type `PullRequests`. -/
abbrev PullRequests := List PullRequest

/-- The method `PullRequests.ContainsLabel`. -/
def PullRequests.ContainsLabel : PullRequests → GoString → PullRequest × Bool
  | [], _ => (PullRequest.zero, false)
  | r :: rr, name =>
    if r.ContainsLabel name then (r, true) else PullRequests.ContainsLabel rr name

/-! ## `net/url`: escaping and `Values` -/

/-- The type `encoding` of `net/url`: the part of a URL a string is escaped for. -/
inductive Encoding where
  | encodePath
  | encodePathSegment
  | encodeHost
  | encodeZone
  | encodeUserPassword
  | encodeQueryComponent
  | encodeFragment
deriving DecidableEq

/-- Whether a byte is an ASCII letter or digit. -/
def isAlnum (c : UInt8) : Bool :=
  decide (0x61 ≤ c.toNat ∧ c.toNat ≤ 0x7A) || decide (0x41 ≤ c.toNat ∧ c.toNat ≤ 0x5A)
    || decide (0x30 ≤ c.toNat ∧ c.toNat ≤ 0x39)

/-- The function `shouldEscape` of `net/url`.  In the host list `0x27` is the apostrophe
and `0x22` the double quote. -/
def shouldEscape (c : UInt8) (mode : Encoding) : Bool :=
  if isAlnum c then false
  else if (mode = Encoding.encodeHost ∨ mode = Encoding.encodeZone)
      ∧ c ∈ str "!$&()*+,;=:[]<>" ++ [0x27, 0x22] then false
  else if c ∈ str "-_.~" then false
  else if c ∈ str "$&+,/:;=?@" then
    match mode with
    | Encoding.encodePath => c == 0x3F
    | Encoding.encodePathSegment => decide (c ∈ str "/;,?")
    | Encoding.encodeUserPassword => decide (c ∈ str "@/?:")
    | Encoding.encodeQueryComponent => true
    | Encoding.encodeFragment => false
    | _ => true
  else if mode = Encoding.encodeFragment ∧ c ∈ str "!()*" then false
  else true

/-- The table `upperhex` of `net/url`. -/
def upperhex : GoString := str "0123456789ABCDEF"

/-- The function `escape` of `net/url`: a space becomes `+` in a query component, a byte
that `shouldEscape` becomes `%XX`, any other byte is copied.  (The first pass of the Go
code only counts, to size the buffer and to return `s` itself when nothing changes.) -/
def escape (s : GoString) (mode : Encoding) : GoString :=
  s.flatMap (fun c =>
    if c = 0x20 ∧ mode = Encoding.encodeQueryComponent then [0x2B]
    else if shouldEscape c mode then
      [0x25, upperhex.getD (c.toNat >>> 4) 0, upperhex.getD (c.toNat &&& 15) 0]
    else [c])

/-- The function `url.QueryEscape`. -/
def QueryEscape (s : GoString) : GoString :=
  escape s Encoding.encodeQueryComponent

/-- The type `url.Values`, a `map[string][]string`, as an association list with one
entry for each key. -/
abbrev Values := List (GoString × List GoString)

/-- The map read `v[key]`; a missing key reads as the nil slice. -/
def Values.get (v : Values) (key : GoString) : List GoString :=
  match v with
  | [] => []
  | (k, vs) :: rest => if k = key then vs else Values.get rest key

/-- The method `Values.Add`: `v[key] = append(v[key], value)`. -/
def Values.Add (v : Values) (key value : GoString) : Values :=
  match v with
  | [] => [(key, [value])]
  | (k, vs) :: rest =>
    if k = key then (k, vs ++ [value]) :: rest else (k, vs) :: Values.Add rest key value

/-- The order `<=` of Go on strings: bytewise lexicographic. -/
def strLe : GoString → GoString → Bool
  | [], _ => true
  | _ :: _, [] => false
  | a :: s, b :: t =>
    if a.toNat < b.toNat then true else if b.toNat < a.toNat then false else strLe s t

/-- Insertion of a key into a sorted list of keys. -/
def insertKey (k : GoString) : List GoString → List GoString
  | [] => [k]
  | x :: xs => if strLe k x then k :: x :: xs else x :: insertKey k xs

/-- The call `slices.Sort(keys)` on strings. -/
def sortKeys (keys : List GoString) : List GoString :=
  keys.foldr insertKey []

/-- The method `Values.Encode`: the keys in sorted order and, for each value of a key,
`QueryEscape(key) = QueryEscape(value)`, with `&` before every pair but the first. -/
def Values.Encode (v : Values) : GoString :=
  if v.length = 0 then []
  else
    let keys := sortKeys (v.map Prod.fst)
    keys.foldl (fun buf k =>
      let vs := Values.get v k
      let keyEscaped := QueryEscape k
      vs.foldl (fun buf val =>
        (if buf.length > 0 then buf ++ [0x26] else buf) ++ keyEscaped ++ [0x3D]
          ++ QueryEscape val) buf) []

/-- The struct `ListPullRequestOptions`. -/
structure ListPullRequestOptions where
  State : GoString
  Head : GoString
  Base : GoString
  «Sort» : GoString
  Direction : GoString
deriving DecidableEq

/-- The method `(*ListPullRequestOptions).String`; `none` is the nil pointer. -/
def ListPullRequestOptions.String (o : Option ListPullRequestOptions) : GoString :=
  match o with
  | none => []
  | some o =>
    let v : Values := []
    let v := if o.State ≠ [] then Values.Add v (str "state") o.State else v
    let v := if o.Head ≠ [] then Values.Add v (str "head") o.Head else v
    let v := if o.Base ≠ [] then Values.Add v (str "base") o.Base else v
    let v := if o.«Sort» ≠ [] then Values.Add v (str "sort") o.«Sort» else v
    let v := if o.Direction ≠ [] then Values.Add v (str "direction") o.Direction else v
    Values.Encode v

/-- The key-value pairs the specification expects in the query string: one
`key=escaped value` for each field that is not empty. -/
def expectedPairs (o : ListPullRequestOptions) : List GoString :=
  [(str "base", o.Base), (str "direction", o.Direction), (str "head", o.Head),
    (str "sort", o.«Sort»), (str "state", o.State)].filterMap
    (fun kv => if kv.2 = [] then none else some (kv.1 ++ str "=" ++ QueryEscape kv.2))

/-! ## Errors -/

/-- A Go `error` value, as far as the program and the library routines embedded here
produce one.  Sentinel errors (`io.EOF`, `context.Canceled`, `context.DeadlineExceeded`)
are constructors of their own, since Go compares them by identity. -/
inductive Error where
  /-- The value of `errors.New(msg)`. -/
  | errorString (msg : GoString)
  /-- The value of `fmt.Errorf(format, args...)`, kept unformatted. -/
  | errorf (format : GoString) (args : List GoString)
  /-- The type `url.EscapeError`. -/
  | EscapeError (s : GoString)
  /-- The type `url.InvalidHostError`. -/
  | InvalidHostError (s : GoString)
  /-- The type `*url.Error`. -/
  | urlError (Op : GoString) (URL : GoString) (Err : Error)
  /-- The sentinel `io.EOF`. -/
  | EOF
  /-- The type `*json.InvalidUnmarshalError`, with the name of the Go type it was given. -/
  | InvalidUnmarshalError (typ : GoString)
  /-- The sentinel `context.Canceled`. -/
  | Canceled
  /-- The sentinel `context.DeadlineExceeded`. -/
  | DeadlineExceeded
  /-- Any other error value, told apart by a tag. -/
  | other (tag : Nat)
deriving DecidableEq

/-! ## `strings`, on byte sequences -/

/-- The function `strings.HasPrefix`. -/
def HasPrefix (s pre : GoString) : Bool := pre.isPrefixOf s

/-- The function `strings.HasSuffix`. -/
def HasSuffix (s suffix : GoString) : Bool := suffix.isSuffixOf s

/-- The scan of `strings.Index` from offset `i`. -/
def Index.loop (sep : GoString) (i : Nat) : GoString → Int
  | [] => if sep = [] then (i : Int) else -1
  | c :: t => if sep.isPrefixOf (c :: t) then (i : Int) else Index.loop sep (i + 1) t

/-- The function `strings.Index`: the offset of the first occurrence of `sep`, or `-1`. -/
def Index (s sep : GoString) : Int := Index.loop sep 0 s

/-- The scan of `strings.LastIndex` from offset `i`, `last` being the last occurrence
seen so far. -/
def LastIndex.loop (sep : GoString) (i : Nat) (last : Int) : GoString → Int
  | [] => if sep = [] then (i : Int) else last
  | c :: t => LastIndex.loop sep (i + 1) (if sep.isPrefixOf (c :: t) then (i : Int) else last) t

/-- The function `strings.LastIndex`: the offset of the last occurrence of `sep`, or `-1`. -/
def LastIndex (s sep : GoString) : Int := LastIndex.loop sep 0 (-1) s

/-- The function `strings.Contains`. -/
def Contains (s substr : GoString) : Bool := decide (Index s substr ≥ 0)

/-- The function `strings.Cut`: the text before and after the first `sep`, and whether
`sep` was found. -/
def Cut (s sep : GoString) : GoString × GoString × Bool :=
  let i := Index s sep
  if i ≥ 0 then (s.take i.toNat, s.drop (i.toNat + sep.length), true) else (s, [], false)

/-- The function `strings.Count` for a separator of one byte. -/
def Count (s : GoString) (sep : UInt8) : Int := (s.count sep : Int)

/-- The function `strings.ToLower` on an ASCII string. -/
def ToLower (s : GoString) : GoString :=
  s.map (fun c => if 0x41 ≤ c.toNat ∧ c.toNat ≤ 0x5A then c + 0x20 else c)

/-! ## `net/url`: parsing (as of Go 1.22) -/

/-- The struct `url.Userinfo`. -/
structure Userinfo where
  username : GoString
  password : GoString
  passwordSet : Bool
deriving DecidableEq

/-- The struct `url.URL`; a nil `User` is `none`. -/
structure URL where
  Scheme : GoString
  Opaque : GoString
  User : Option Userinfo
  Host : GoString
  Path : GoString
  RawPath : GoString
  OmitHost : Bool
  ForceQuery : Bool
  RawQuery : GoString
  Fragment : GoString
  RawFragment : GoString
deriving DecidableEq

/-- The zero value `URL{}`, what `new(URL)` points to. -/
def URL.zero : URL := ⟨[], [], none, [], [], [], false, false, [], [], []⟩

/-- The function `ishex` of `net/url`. -/
def ishex (c : UInt8) : Bool :=
  decide (0x30 ≤ c.toNat ∧ c.toNat ≤ 0x39) || decide (0x61 ≤ c.toNat ∧ c.toNat ≤ 0x66)
    || decide (0x41 ≤ c.toNat ∧ c.toNat ≤ 0x46)

/-- The function `unhex` of `net/url`. -/
def unhex (c : UInt8) : UInt8 :=
  if 0x30 ≤ c.toNat ∧ c.toNat ≤ 0x39 then c - 0x30
  else if 0x61 ≤ c.toNat ∧ c.toNat ≤ 0x66 then c - 0x61 + 10
  else if 0x41 ≤ c.toNat ∧ c.toNat ≤ 0x46 then c - 0x41 + 10
  else 0

/-- The function `unescape` of `net/url`.  The Go code checks the whole string in a first
pass and builds the result in a second; here both go left to right together, which
gives the same error (the leftmost) or the same result. -/
def unescape (mode : Encoding) : GoString → Except Error GoString
  | [] => Except.ok []
  | c :: rest =>
    if c = 0x25 then
      match rest with
      | h1 :: h2 :: rest2 =>
        if !ishex h1 || !ishex h2 then Except.error (Error.EscapeError [c, h1, h2])
        else if mode = Encoding.encodeHost ∧ (unhex h1).toNat < 8 ∧ [c, h1, h2] ≠ str "%25" then
          Except.error (Error.EscapeError [c, h1, h2])
        else if mode = Encoding.encodeZone ∧ [c, h1, h2] ≠ str "%25"
            ∧ ((unhex h1 <<< 4) ||| unhex h2) ≠ 0x20
            ∧ shouldEscape ((unhex h1 <<< 4) ||| unhex h2) Encoding.encodeHost then
          Except.error (Error.EscapeError [c, h1, h2])
        else
          match unescape mode rest2 with
          | Except.error e => Except.error e
          | Except.ok t => Except.ok (((unhex h1 <<< 4) ||| unhex h2) :: t)
      | _ => Except.error (Error.EscapeError (c :: rest))
    else if c = 0x2B then
      match unescape mode rest with
      | Except.error e => Except.error e
      | Except.ok t =>
        Except.ok ((if mode = Encoding.encodeQueryComponent then 0x20 else 0x2B) :: t)
    else if (mode = Encoding.encodeHost ∨ mode = Encoding.encodeZone) ∧ c.toNat < 0x80
        ∧ shouldEscape c Encoding.encodeHost then
      Except.error (Error.InvalidHostError [c])
    else
      match unescape mode rest with
      | Except.error e => Except.error e
      | Except.ok t => Except.ok (c :: t)

/-- The function `stringContainsCTLByte` of `net/url`. -/
def stringContainsCTLByte (s : GoString) : Bool :=
  s.any (fun b => decide (b.toNat < 0x20) || decide (b = 0x7F))

/-- The loop of `getScheme`, at offset `i` of `rawURL` with `rest` still to read. -/
def getScheme.loop (rawURL : GoString) (i : Nat) (rest : GoString) :
    Except Error (GoString × GoString) :=
  match rest with
  | [] => Except.ok ([], rawURL)
  | c :: t =>
    if (0x61 ≤ c.toNat ∧ c.toNat ≤ 0x7A) ∨ (0x41 ≤ c.toNat ∧ c.toNat ≤ 0x5A) then
      getScheme.loop rawURL (i + 1) t
    else if (0x30 ≤ c.toNat ∧ c.toNat ≤ 0x39) ∨ c = 0x2B ∨ c = 0x2D ∨ c = 0x2E then
      if i = 0 then Except.ok ([], rawURL) else getScheme.loop rawURL (i + 1) t
    else if c = 0x3A then
      if i = 0 then Except.error (Error.errorString (str "missing protocol scheme"))
      else Except.ok (rawURL.take i, t)
    else Except.ok ([], rawURL)

/-- The function `getScheme` of `net/url`: the scheme and what follows its colon. -/
def getScheme (rawURL : GoString) : Except Error (GoString × GoString) :=
  getScheme.loop rawURL 0 rawURL

/-- The function `validOptionalPort` of `net/url`. -/
def validOptionalPort (port : GoString) : Bool :=
  match port with
  | [] => true
  | c :: t => if c ≠ 0x3A then false else t.all (fun b => decide (0x30 ≤ b.toNat ∧ b.toNat ≤ 0x39))

/-- The function `validUserinfo` of `net/url`.  It ranges over runes; a rune above
`0x7F` is refused, and so is every byte above `0x7F`. -/
def validUserinfo (s : GoString) : Bool :=
  s.all (fun r => isAlnum r || decide (r ∈ str "-._:~!$&()*+,;=%@" ++ [0x27]))

/-- The function `parseHost` of `net/url`. -/
def parseHost (host : GoString) : Except Error GoString :=
  if HasPrefix host (str "[") then
    let i := LastIndex host (str "]")
    if i < 0 then Except.error (Error.errorString (str "missing " ++ [0x27, 0x5D, 0x27] ++ str " in host"))
    else
      let colonPort := host.drop (i.toNat + 1)
      if !validOptionalPort colonPort then
        Except.error (Error.errorf (str "invalid port %q after host") [colonPort])
      else
        let zone := Index (host.take i.toNat) (str "%25")
        if zone ≥ 0 then
          match unescape Encoding.encodeHost (host.take zone.toNat) with
          | Except.error e => Except.error e
          | Except.ok host1 =>
            match unescape Encoding.encodeZone ((host.take i.toNat).drop zone.toNat) with
            | Except.error e => Except.error e
            | Except.ok host2 =>
              match unescape Encoding.encodeHost (host.drop i.toNat) with
              | Except.error e => Except.error e
              | Except.ok host3 => Except.ok (host1 ++ host2 ++ host3)
        else unescape Encoding.encodeHost host
  else
    let i := LastIndex host (str ":")
    if i ≠ -1 ∧ !validOptionalPort (host.drop i.toNat) then
      Except.error (Error.errorf (str "invalid port %q after host") [host.drop i.toNat])
    else unescape Encoding.encodeHost host

/-- The function `parseAuthority` of `net/url`. -/
def parseAuthority (authority : GoString) : Except Error (Option Userinfo × GoString) :=
  let i := LastIndex authority (str "@")
  match (if i < 0 then parseHost authority else parseHost (authority.drop (i.toNat + 1))) with
  | Except.error e => Except.error e
  | Except.ok host =>
    if i < 0 then Except.ok (none, host)
    else
      let userinfo := authority.take i.toNat
      if !validUserinfo userinfo then
        Except.error (Error.errorString (str "net/url: invalid userinfo"))
      else if !Contains userinfo (str ":") then
        match unescape Encoding.encodeUserPassword userinfo with
        | Except.error e => Except.error e
        | Except.ok userinfo => Except.ok (some ⟨userinfo, [], false⟩, host)
      else
        match unescape Encoding.encodeUserPassword (Cut userinfo (str ":")).1 with
        | Except.error e => Except.error e
        | Except.ok username =>
          match unescape Encoding.encodeUserPassword (Cut userinfo (str ":")).2.1 with
          | Except.error e => Except.error e
          | Except.ok password => Except.ok (some ⟨username, password, true⟩, host)

/-- The method `(*URL).setPath`. -/
def URL.setPath (u : URL) (p : GoString) : Except Error URL :=
  match unescape Encoding.encodePath p with
  | Except.error e => Except.error e
  | Except.ok path =>
    Except.ok { u with
      Path := path
      RawPath := if p = escape path Encoding.encodePath then [] else p }

/-- The method `(*URL).setFragment`. -/
def URL.setFragment (u : URL) (f : GoString) : Except Error URL :=
  match unescape Encoding.encodeFragment f with
  | Except.error e => Except.error e
  | Except.ok frag =>
    Except.ok { u with
      Fragment := frag
      RawFragment := if f = escape frag Encoding.encodeFragment then [] else f }

/-- The function `parse` of `net/url`: a URL without its fragment. -/
def parse (rawURL : GoString) (viaRequest : Bool) : Except Error URL :=
  if stringContainsCTLByte rawURL then
    Except.error (Error.errorString (str "net/url: invalid control character in URL"))
  else if rawURL = [] ∧ viaRequest then Except.error (Error.errorString (str "empty url"))
  else if rawURL = str "*" then Except.ok { URL.zero with Path := str "*" }
  else
    match getScheme rawURL with
    | Except.error e => Except.error e
    | Except.ok (scheme, rest0) =>
      let url : URL := { URL.zero with Scheme := ToLower scheme }
      let forced := HasSuffix rest0 (str "?") && decide (Count rest0 0x3F = 1)
      let rest := if forced then rest0.take (rest0.length - 1) else (Cut rest0 (str "?")).1
      let url : URL :=
        if forced then { url with ForceQuery := true }
        else { url with RawQuery := (Cut rest0 (str "?")).2.1 }
      if !HasPrefix rest (str "/") ∧ url.Scheme ≠ [] then
        Except.ok { url with Opaque := rest }
      else if !HasPrefix rest (str "/") ∧ viaRequest then
        Except.error (Error.errorString (str "invalid URI for request"))
      else if !HasPrefix rest (str "/") ∧ Contains (Cut rest (str "/")).1 (str ":") then
        Except.error (Error.errorString (str "first path segment in URL cannot contain colon"))
      else if (url.Scheme ≠ [] ∨ (!viaRequest ∧ !HasPrefix rest (str "///")))
          ∧ HasPrefix rest (str "//") then
        let authority0 := rest.drop 2
        let i := Index authority0 (str "/")
        let authority := if i ≥ 0 then authority0.take i.toNat else authority0
        let rest := if i ≥ 0 then authority0.drop i.toNat else []
        match parseAuthority authority with
        | Except.error e => Except.error e
        | Except.ok (user, host) => URL.setPath { url with User := user, Host := host } rest
      else if url.Scheme ≠ [] ∧ HasPrefix rest (str "/") then
        URL.setPath { url with OmitHost := true } rest
      else URL.setPath url rest

/-- The function `url.Parse`. -/
def Parse (rawURL : GoString) : Except Error URL :=
  let u := (Cut rawURL (str "#")).1
  let frag := (Cut rawURL (str "#")).2.1
  match parse u false with
  | Except.error e => Except.error (Error.urlError (str "parse") u e)
  | Except.ok url =>
    if frag = [] then Except.ok url
    else
      match URL.setFragment url frag with
      | Except.error e => Except.error (Error.urlError (str "parse") rawURL e)
      | Except.ok url => Except.ok url

/-! ## The client -/

/-- The value of the field `client`; the program only ever stores `http.DefaultClient`. -/
inductive HTTPClient where
  | DefaultClient
deriving DecidableEq

/-- The struct `Client`. -/
structure Client where
  accessToken : GoString
  client : HTTPClient
  username : GoString
  BaseURL : URL
deriving DecidableEq

/-- The function `NewClient`; the pair `(nil, err)` is `Except.error err`. -/
def NewClient (baseURL accessToken username : GoString) : Except Error Client :=
  match Parse baseURL with
  | Except.error err => Except.error err
  | Except.ok u =>
    if !HasSuffix u.Path (str "/") then
      Except.error
        (Error.errorf (str "baseURL must have a trailing slash, but %q does not") [baseURL])
    else
      Except.ok
        { accessToken := accessToken
          username := username
          client := HTTPClient.DefaultClient
          BaseURL := u }

/-! ## The outside world: `context`, `net/http`, `encoding/json`

The program reaches the network and the JSON decoder through library calls.  Each such
call is embedded by its outcome: the outcome is an input of the embedding, and the code
of `main.go` around the call is embedded as it stands. -/

/-- A `context.Context` at the moment `Client.Do` polls it: `Err` is `ctx.Err()`, which
is non-nil exactly when the channel `ctx.Done()` is closed. -/
structure Context where
  Err : Option Error
deriving DecidableEq

/-- The struct `http.Request`, as far as the program sets it. -/
structure Request where
  Method : GoString
  URL : GoString
  Header : List (GoString × GoString)
  Body : Option GoString
deriving DecidableEq

/-- The method `http.Header.Add`, for a key already in canonical form. -/
def Request.HeaderAdd (req : Request) (key value : GoString) : Request :=
  { req with Header := req.Header ++ [(key, value)] }

/-- The struct `http.Response`, as far as the program reads it: the bytes its body
yields before end of input. -/
structure Response where
  Body : GoString
deriving DecidableEq

/-- The routines of `net/url` and `net/http` that `Client.NewRequest` calls besides
`url.Parse`. -/
structure Lib where
  /-- The method `(*url.URL).ResolveReference`. -/
  ResolveReference : URL → URL → URL
  /-- The method `(*url.URL).String`. -/
  URLString : URL → GoString
  /-- The function `http.NewRequest`. -/
  NewRequest : GoString → GoString → Option GoString → Except Error Request

/-- The outcome of `c.client.Do(req.WithContext(ctx))` for each request. -/
structure Transport where
  RoundTrip : Request → Except Error Response

/-- The behaviour of `encoding/json` towards a destination of Go type `α`. -/
structure JSON (α : Type) where
  /-- The name of the Go type, as `reflect.TypeOf(v).String()` prints it. -/
  typeName : GoString
  /-- The method `(*Decoder).readValue` on a stream that is not empty: the bytes of the
  first JSON value, or the error of the scanner. -/
  readValue : GoString → Except Error GoString
  /-- The method `(*decodeState).unmarshal` into a non-nil pointer: the new contents of
  the pointee and the error, if any. -/
  unmarshal : GoString → α → α × Option Error

/-- The argument `v interface{}` of `Client.Do` for a destination of Go type `α`: the nil
interface, a value of type `α` passed as it is, a nil pointer to `α`, or a non-nil pointer
to a variable of type `α` holding `x`. -/
inductive Dest (α : Type) where
  | nilInterface
  | value (x : α)
  | nilPointer
  | pointer (x : α)
deriving DecidableEq

/-- The call `json.NewDecoder(body).Decode(v)` and what `v` is afterwards.  `Decode`
first reads one JSON value from the stream: a stream at end of input gives `io.EOF`
before `v` is looked at.  Only then `unmarshal` refuses a `v` that is not a non-nil
pointer, with `InvalidUnmarshalError`. -/
def Decode {α : Type} (j : JSON α) (body : GoString) (v : Dest α) : Dest α × Option Error :=
  match (if body = [] then Except.error Error.EOF else j.readValue body) with
  | Except.error err => (v, some err)
  | Except.ok raw =>
    match v with
    | Dest.pointer x => (Dest.pointer (j.unmarshal raw x).1, (j.unmarshal raw x).2)
    | _ => (v, some (Error.InvalidUnmarshalError j.typeName))

/-- The method `Client.NewRequest`. -/
def Client.NewRequest (c : Client) (lib : Lib) (method path : GoString)
    (body : Option GoString) : Except Error Request :=
  match Parse path with
  | Except.error err => Except.error err
  | Except.ok ref =>
    let u := lib.ResolveReference c.BaseURL ref
    match lib.NewRequest method (lib.URLString u) body with
    | Except.error err => Except.error err
    | Except.ok req =>
      let req := req.HeaderAdd (str "Accept") (str "vnd.github.v3+json")
      let req := req.HeaderAdd (str "User-Agent") (str "autoship")
      let req := req.HeaderAdd (str "Authorization") c.accessToken
      Except.ok req

/-- The method `Client.Do`: the destination after the call and the error returned.  The
deferred `res.Body.Close()` has no effect on either. -/
def Client.Do {α : Type} (_c : Client) (tr : Transport) (j : JSON α) (ctx : Context)
    (req : Request) (v : Dest α) : Dest α × Option Error :=
  match tr.RoundTrip req with
  | Except.error err =>
    match ctx.Err with
    | some ctxErr => (v, some ctxErr)
    | none => (v, some err)
  | Except.ok res =>
    match v with
    | Dest.nilInterface => (v, none)
    | _ =>
      match Decode j res.Body v with
      | (v, some err) => if err ≠ Error.EOF then (v, some err) else (v, none)
      | (v, none) => (v, none)

/-- The text of `fmt.Sprintf("repos/%s/%s/pulls?%s", owner, repo, opts)`; `%s` prints a
`*ListPullRequestOptions` through its `String` method, nil included. -/
def pullsPath (owner repo : GoString) (opts : Option ListPullRequestOptions) : GoString :=
  str "repos/" ++ owner ++ str "/" ++ repo ++ str "/pulls?" ++ ListPullRequestOptions.String opts

/-- The method `Client.ListPullRequests`. -/
def Client.ListPullRequests (c : Client) (lib : Lib) (tr : Transport)
    (j : JSON (List PullRequest)) (ctx : Context) (owner repo : GoString)
    (opts : Option ListPullRequestOptions) : List PullRequest × Option Error :=
  let u := pullsPath owner repo opts
  match c.NewRequest lib (str "GET") u none with
  | Except.error err => ([], some err)
  | Except.ok req =>
    let prs : List PullRequest := []
    match c.Do tr j ctx req (Dest.pointer prs) with
    | (_, some err) => ([], some err)
    | (Dest.pointer prs, none) => (prs, none)
    | (_, none) => (prs, none)

/-- The text of `fmt.Sprintf("repos/%s/%s/issues/%d/comments", owner, repo, number)`. -/
def commentsPath (owner repo : GoString) (number : Int) : GoString :=
  str "repos/" ++ owner ++ str "/" ++ repo ++ str "/issues/" ++ str (toString number)
    ++ str "/comments"

/-- The method `Client.ListComments`.  The slice `comments` is passed to `Do` by value,
so whatever `Do` does, the variable returned at the end is the nil slice declared
before the call. -/
def Client.ListComments (c : Client) (lib : Lib) (tr : Transport)
    (j : JSON (List Comment)) (ctx : Context) (owner repo : GoString) (number : Int) :
    List Comment × Option Error :=
  let u := commentsPath owner repo number
  match c.NewRequest lib (str "GET") u none with
  | Except.error err => ([], some err)
  | Except.ok req =>
    let comments : List Comment := []
    match c.Do tr j ctx req (Dest.value comments) with
    | (_, some err) => ([], some err)
    | (_, none) => (comments, none)

/-! ## Sample surroundings for concrete runs -/

/-- A `Lib` for concrete runs: the reference is resolved by appending its path to the
path of the base, a URL prints as `scheme://host/path?query`, and a request is always
built. -/
def Lib.sample : Lib where
  ResolveReference := fun base ref =>
    { ref with Scheme := base.Scheme, Host := base.Host, Path := base.Path ++ ref.Path }
  URLString := fun u =>
    u.Scheme ++ str "://" ++ u.Host ++ u.Path
      ++ (if u.ForceQuery ∨ u.RawQuery ≠ [] then str "?" ++ u.RawQuery else [])
  NewRequest := fun method url body => Except.ok ⟨method, url, [], body⟩

/-- A `Transport` for concrete runs: every round trip has the outcome `r`. -/
def Transport.const (r : Except Error Response) : Transport where
  RoundTrip := fun _ => r

/-- A `JSON` for concrete runs on `[]PullRequest`: the whole stream is one value; the
array `[]` decodes to the empty slice, an array of one empty object to one zero
`PullRequest`, anything else is an error. -/
def JSON.samplePulls : JSON (List PullRequest) where
  typeName := str "[]main.PullRequest"
  readValue := fun body => Except.ok body
  unmarshal := fun raw x =>
    if raw = str "[]" then ([], none)
    else if raw = str "[\x7b\x7d]" then ([PullRequest.zero], none)
    else (x, some (Error.other 0))

/-- A `JSON` for concrete runs on `[]Comment`, like `JSON.samplePulls`. -/
def JSON.sampleComments : JSON (List Comment) where
  typeName := str "[]main.Comment"
  readValue := fun body => Except.ok body
  unmarshal := fun raw x =>
    if raw = str "[]" then ([], none)
    else if raw = str "[\x7b\x7d]" then ([⟨[], [], User.zero⟩], none)
    else (x, some (Error.other 0))

/-- The client that `main` builds. -/
def Client.sample : Client where
  accessToken := str "Basic Q29kb25hdXQ6ckJDd0J2ZEhwdmlBQndUWENtY3RnUEcz"
  client := HTTPClient.DefaultClient
  username := str "Codonaut"
  BaseURL :=
    { URL.zero with Scheme := str "https", Host := str "api.github.com", Path := str "/" }

/-- The request `Client.sample` builds for the pull requests of `Codonaut/badgermole`. -/
def Request.samplePulls : Request where
  Method := str "GET"
  URL := str "https://api.github.com/repos/Codonaut/badgermole/pulls?"
  Header :=
    [(str "Accept", str "vnd.github.v3+json"), (str "User-Agent", str "autoship"),
      (str "Authorization", str "Basic Q29kb25hdXQ6ckJDd0J2ZEhwdmlBQndUWENtY3RnUEcz")]
  Body := none

/-! ## Theorems: the sanitizer -/

theorem or_low (x y k : Nat) (i : Nat) (hk : k = 2 ^ i) (h : y < k) :
    (k * x) ||| y = k * x + y := by
  subst hk
  exact (Nat.mul_add_lt_is_or h x).symm

theorem rune2 (a b : Nat) : ((a &&& 0x1F) <<< 6) ||| (b &&& 0x3F) = a % 32 * 64 + b % 64 := by
  have h1 : a &&& 0x1F = a % 32 := Nat.and_pow_two_sub_one_eq_mod a 5
  have h2 : b &&& 0x3F = b % 64 := Nat.and_pow_two_sub_one_eq_mod b 6
  have hb : b % 64 < 64 := Nat.mod_lt _ (by norm_num)
  rw [h1, h2, Nat.shiftLeft_eq, Nat.mul_comm, or_low _ _ (2 ^ 6) 6 rfl hb]

theorem rune3 (a b c : Nat) :
    ((a &&& 0x0F) <<< 12) ||| ((b &&& 0x3F) <<< 6) ||| (c &&& 0x3F)
      = a % 16 * 4096 + b % 64 * 64 + c % 64 := by
  have h1 : a &&& 0x0F = a % 16 := Nat.and_pow_two_sub_one_eq_mod a 4
  have h2 : b &&& 0x3F = b % 64 := Nat.and_pow_two_sub_one_eq_mod b 6
  have h3 : c &&& 0x3F = c % 64 := Nat.and_pow_two_sub_one_eq_mod c 6
  have hb : b % 64 < 64 := Nat.mod_lt _ (by norm_num)
  have hc : c % 64 < 64 := Nat.mod_lt _ (by norm_num)
  have e1 : (a % 16) <<< 12 ||| (b % 64) <<< 6 = 64 * (a % 16 * 64 + b % 64) := by
    rw [Nat.shiftLeft_eq, Nat.shiftLeft_eq, Nat.mul_comm (a % 16),
      or_low _ _ (2 ^ 12) 12 rfl (by norm_num; omega)]
    norm_num
    ring
  rw [h1, h2, h3, e1, or_low _ _ 64 6 rfl hc]
  ring

theorem rune4 (a b c d : Nat) :
    ((a &&& 0x07) <<< 18) ||| ((b &&& 0x3F) <<< 12) ||| ((c &&& 0x3F) <<< 6) ||| (d &&& 0x3F)
      = a % 8 * 262144 + b % 64 * 4096 + c % 64 * 64 + d % 64 := by
  have h1 : a &&& 0x07 = a % 8 := Nat.and_pow_two_sub_one_eq_mod a 3
  have h2 : b &&& 0x3F = b % 64 := Nat.and_pow_two_sub_one_eq_mod b 6
  have h3 : c &&& 0x3F = c % 64 := Nat.and_pow_two_sub_one_eq_mod c 6
  have h4 : d &&& 0x3F = d % 64 := Nat.and_pow_two_sub_one_eq_mod d 6
  have hb : b % 64 < 64 := Nat.mod_lt _ (by norm_num)
  have hc : c % 64 < 64 := Nat.mod_lt _ (by norm_num)
  have hd : d % 64 < 64 := Nat.mod_lt _ (by norm_num)
  have e1 : (a % 8) <<< 18 ||| (b % 64) <<< 12 = 4096 * (a % 8 * 64 + b % 64) := by
    rw [Nat.shiftLeft_eq, Nat.shiftLeft_eq, Nat.mul_comm (a % 8),
      or_low _ _ (2 ^ 18) 18 rfl (by norm_num; omega)]
    norm_num
    ring
  have e2 : 4096 * (a % 8 * 64 + b % 64) ||| (c % 64) <<< 6
      = 64 * ((a % 8 * 64 + b % 64) * 64 + c % 64) := by
    rw [Nat.shiftLeft_eq, or_low _ _ 4096 12 rfl (by norm_num; omega)]
    norm_num
    ring
  rw [h1, h2, h3, h4, e1, e2, or_low _ _ 64 6 rfl hd]
  ring

theorem decode_ascii (s0 : UInt8) (t : GoString) (h : s0.toNat < 0x80) :
    DecodeRuneInString (s0 :: t) = (s0.toNat, 1) := by
  simp [DecodeRuneInString, first, h]

theorem first_high (a : Nat) (h : 0x80 ≤ a) :
    first a = 0xF1 ∨ (first a = 0x02 ∧ 0xC2 ≤ a ∧ a < 0xE0) ∨ (first a = 0x13 ∧ a = 0xE0)
      ∨ (first a = 0x03 ∧ 0xE1 ≤ a ∧ a ≤ 0xEF) ∨ (first a = 0x23 ∧ a = 0xED)
      ∨ (first a = 0x34 ∧ a = 0xF0) ∨ (first a = 0x04 ∧ 0xF1 ≤ a ∧ a ≤ 0xF3)
      ∨ (first a = 0x44 ∧ a = 0xF4) := by
  have hc : a < 0xC2 ∨ (0xC2 ≤ a ∧ a < 0xE0) ∨ a = 0xE0 ∨ (0xE1 ≤ a ∧ a < 0xED) ∨ a = 0xED
      ∨ (0xEE ≤ a ∧ a < 0xF0) ∨ a = 0xF0 ∨ (0xF1 ≤ a ∧ a < 0xF4) ∨ a = 0xF4 ∨ 0xF4 < a := by
    omega
  unfold first
  rcases hc with c | c | c | c | c | c | c | c | c | c
  all_goals repeat (first | rw [if_pos (by omega)] | rw [if_neg (by omega)])
  all_goals omega

theorem highRune_error (t : GoString) : HighRune t (RuneError, 1) := by
  refine ⟨by decide, by decide, ?_⟩
  simp

theorem decode_high (s0 : UInt8) (t : GoString) (h : 0x80 ≤ s0.toNat) :
    HighRune t (DecodeRuneInString (s0 :: t)) := by
  have a02 : (0x02 : Nat) &&& 7 = 2 := rfl
  have a13 : (0x13 : Nat) &&& 7 = 3 := rfl
  have a03 : (0x03 : Nat) &&& 7 = 3 := rfl
  have a23 : (0x23 : Nat) &&& 7 = 3 := rfl
  have a34 : (0x34 : Nat) &&& 7 = 4 := rfl
  have a04 : (0x04 : Nat) &&& 7 = 4 := rfl
  have a44 : (0x44 : Nat) &&& 7 = 4 := rfl
  have r02 : (0x02 : Nat) >>> 4 = 0 := rfl
  have r13 : (0x13 : Nat) >>> 4 = 1 := rfl
  have r03 : (0x03 : Nat) >>> 4 = 0 := rfl
  have r23 : (0x23 : Nat) >>> 4 = 2 := rfl
  have r34 : (0x34 : Nat) >>> 4 = 3 := rfl
  have r04 : (0x04 : Nat) >>> 4 = 0 := rfl
  have r44 : (0x44 : Nat) >>> 4 = 4 := rfl
  unfold DecodeRuneInString
  dsimp only
  rcases first_high _ h with hx | ⟨hx, h1, h2⟩ | ⟨hx, h1⟩ | ⟨hx, h1, h2⟩ | ⟨hx, h1⟩
    | ⟨hx, h1⟩ | ⟨hx, h1, h2⟩ | ⟨hx, h1⟩
  all_goals rw [hx]
  all_goals rcases t with _ | ⟨s1, _ | ⟨s2, _ | ⟨s3, t3⟩⟩⟩
  all_goals simp only [a02, a13, a03, a23, a34, a04, a44, r02, r13, r03, r23, r34, r04, r44,
    acceptRanges, List.length_cons, List.length_nil]
  all_goals norm_num
  all_goals try split_ifs
  all_goals first
    | exact highRune_error _
    | refine ⟨?_, by norm_num, ?_⟩
      · simp only [rune2, rune3, rune4, matchesClass]
        simp
        omega
      · simp
        omega

theorem allowedBytes_eq : allowedBytes
    = (List.range' 97 26 ++ List.range' 65 26 ++ List.range' 48 10 ++ [45]).map UInt8.ofNat := by
  decide

theorem mem_allowedBytes (b : UInt8) :
    b ∈ allowedBytes ↔ ((97 ≤ b.toNat ∧ b.toNat ≤ 122) ∨ (65 ≤ b.toNat ∧ b.toNat ≤ 90)
      ∨ (48 ≤ b.toNat ∧ b.toNat ≤ 57) ∨ b.toNat = 45) := by
  have hb : b.toNat < 256 := UInt8.toNat_lt_size b
  rw [allowedBytes_eq]
  simp only [List.mem_map, List.mem_append, List.mem_range'_1, List.mem_singleton]
  constructor
  · rintro ⟨n, hn, rfl⟩
    have : n < 256 := by omega
    rw [UInt8.toNat_ofNat_of_lt this]
    omega
  · intro h
    exact ⟨b.toNat, by omega, UInt8.toNat.inj (UInt8.toNat_ofNat_of_lt hb)⟩

theorem allowed_iff (b : UInt8) : decide (b ∈ allowedBytes) = !matchesClass b.toNat := by
  unfold matchesClass
  by_cases hm : b ∈ allowedBytes
  · have := (mem_allowedBytes b).1 hm
    simp [hm]
    omega
  · have := mt (mem_allowedBytes b).2 hm
    simp [hm]
    omega

theorem high_not_allowed (b : UInt8) (h : 0x80 ≤ b.toNat) : decide (b ∈ allowedBytes) = false := by
  have := (mem_allowedBytes b)
  simp only [decide_eq_false_iff_not]
  intro hm
  have := this.1 hm
  omega

theorem replaceScan_eq_filter (s : GoString) :
    ∀ (n : Nat) (m : Bool), (n = 0 ∨ (m = true ∧ ∀ b ∈ s.take n, 0x80 ≤ b.toNat)) →
      replaceScan n m s = deleteOutside s := by
  induction s with
  | nil =>
    intro n m _
    cases n <;> simp [replaceScan, deleteOutside]
  | cons b rest ih =>
    intro n m h
    cases n with
    | zero =>
      unfold replaceScan
      dsimp only
      by_cases hb : b.toNat < 0x80
      · rw [decode_ascii b rest hb]
        dsimp only
        have ha := allowed_iff b
        cases hc : matchesClass b.toNat
        · rw [hc] at ha
          simp only [Bool.not_false, decide_eq_true_eq] at ha
          simp only [Bool.false_eq_true, if_false, Nat.sub_self]
          rw [ih 0 false (Or.inl rfl)]
          simp [deleteOutside, ha]
        · rw [hc] at ha
          simp only [Bool.not_true, decide_eq_false_iff_not] at ha
          simp only [if_true, Nat.sub_self]
          rw [ih 0 true (Or.inl rfl)]
          simp [deleteOutside, ha]
      · have hb2 : 0x80 ≤ b.toNat := by omega
        obtain ⟨h1, _, h3⟩ := decode_high b rest hb2
        rw [h1]
        simp only [if_true]
        rw [ih _ true (Or.inr ⟨rfl, h3⟩)]
        have := high_not_allowed b hb2
        simp only [decide_eq_false_iff_not] at this
        simp [deleteOutside, this]
    | succ k =>
      rcases h with h | ⟨hm, hall⟩
      · omega
      · subst hm
        unfold replaceScan
        simp only [if_true]
        have hb2 : 0x80 ≤ b.toNat := hall b (by simp)
        rw [ih k true (Or.inr ⟨rfl, fun c hc => hall c (by simp [hc])⟩)]
        have := high_not_allowed b hb2
        simp only [decide_eq_false_iff_not] at this
        simp [deleteOutside, this]

theorem ReplaceAllString_eq (s : GoString) : ReplaceAllString s = deleteOutside s :=
  replaceScan_eq_filter s 0 false (Or.inl rfl)

theorem rdropWhile_cons_of_ne {α : Type} (p : α → Bool) (a : α) (t : List α)
    (h : List.rdropWhile p t ≠ []) :
    List.rdropWhile p (a :: t) = a :: List.rdropWhile p t := by
  induction t using List.reverseRecOn with
  | nil => simp at h
  | append_singleton t x ih =>
    rw [← List.cons_append, List.rdropWhile_concat, List.rdropWhile_concat]
    rw [List.rdropWhile_concat] at h
    by_cases hx : p x = true
    · simp only [hx, if_true] at h ⊢
      exact ih h
    · simp [hx]

theorem rdropWhile_cons_of_nil {α : Type} (p : α → Bool) (a : α) (t : List α)
    (h : List.rdropWhile p t = []) :
    List.rdropWhile p (a :: t) = if p a then [] else [a] := by
  induction t using List.reverseRecOn with
  | nil => simp [List.rdropWhile_singleton]
  | append_singleton t x ih =>
    rw [← List.cons_append, List.rdropWhile_concat]
    rw [List.rdropWhile_concat] at h
    by_cases hx : p x = true
    · simp only [hx, if_true] at h ⊢
      exact ih h
    · simp [hx] at h

theorem dropWhile_rdropWhile_comm {α : Type} (p : α → Bool) (s : List α) :
    List.dropWhile p (List.rdropWhile p s) = List.rdropWhile p (List.dropWhile p s) := by
  induction s with
  | nil => simp
  | cons a t ih =>
    by_cases ha : p a = true
    · rw [List.dropWhile_cons_of_pos ha, ← ih]
      by_cases ht : List.rdropWhile p t = []
      · rw [rdropWhile_cons_of_nil p a t ht, ht]
        simp [ha]
      · rw [rdropWhile_cons_of_ne p a t ht, List.dropWhile_cons_of_pos ha]
    · rw [List.dropWhile_cons_of_neg ha]
      by_cases ht : List.rdropWhile p t = []
      · rw [rdropWhile_cons_of_nil p a t ht]
        simp [ha]
      · rw [rdropWhile_cons_of_ne p a t ht, List.dropWhile_cons_of_neg ha]

theorem Trim_eq_stripHyphens (s : GoString) : Trim s 0x2D = stripHyphens s :=
  dropWhile_rdropWhile_comm (fun b => b == 0x2D) s

theorem Trim_head (s : GoString) (c : UInt8) : (Trim s c).head? ≠ some c := by
  intro h
  have := List.head?_dropWhile_not (fun b => b == c) (trimRightByte s c)
  unfold Trim trimLeftByte at h
  rw [h] at this
  simp at this

theorem Trim_getLast (s : GoString) (c : UInt8) : (Trim s c).getLast? ≠ some c := by
  intro h
  have e : Trim s c = List.rdropWhile (fun b => b == c) (List.dropWhile (fun b => b == c) s) :=
    dropWhile_rdropWhile_comm (fun b => b == c) s
  rw [e] at h
  by_cases hn : List.rdropWhile (fun b => b == c) (List.dropWhile (fun b => b == c) s) = []
  · rw [hn] at h
    simp at h
  · have := List.rdropWhile_last_not (fun b => b == c) _ hn
    rw [List.getLast?_eq_getLast _ hn] at h
    simp only [Option.some.injEq] at h
    rw [h] at this
    simp at this

theorem Trim_sublist (s : GoString) (c : UInt8) : List.Sublist (Trim s c) s :=
  (List.dropWhile_sublist _).trans (List.rdropWhile_prefix _ _).sublist

theorem SanitizeName_eq (b : Branch) :
    b.SanitizeName = some (Trim ((deleteOutside b.Name).take 32) 0x2D) := by
  unfold Branch.SanitizeName sliceTo min len
  dsimp only
  rw [ReplaceAllString_eq]
  split_ifs with h1 h2 h2
  · simp
  · omega
  · simp only [Int.toNat_ofNat]
    rw [List.take_of_length_le (le_refl _), List.take_of_length_le (by omega)]
  · omega

/-- C1: the sanitized name has at most 32 bytes, every one of them among the characters
`a-z`, `A-Z`, `0-9`, `-`, and it neither begins nor ends with a hyphen; the method never
panics. -/
theorem SanitizeName_invariant (b : Branch) :
    ∃ out, b.SanitizeName = some out ∧ out.length ≤ 32 ∧ (∀ c ∈ out, c ∈ allowedBytes)
      ∧ out.head? ≠ some 0x2D ∧ out.getLast? ≠ some 0x2D := by
  refine ⟨_, SanitizeName_eq b, ?_, ?_, Trim_head _ _, Trim_getLast _ _⟩
  · exact le_trans (Trim_sublist _ _).length_le (by simp)
  · intro c hc
    have h1 := (Trim_sublist _ _).subset hc
    have h2 := List.mem_of_mem_take h1
    simpa [deleteOutside] using (List.mem_filter.1 h2).2

/-- C8: the sanitized name is the result of deleting every character outside
`[a-zA-Z0-9-]`, keeping at most the first 32 of the rest, then stripping leading and
trailing hyphens; on `feat/my_branch!!` it is `featmybranch`. -/
theorem SanitizeName_three_steps (b : Branch) :
    b.SanitizeName = some (sanitizeSteps b.Name)
      ∧ ∀ c : Commit, Branch.SanitizeName ⟨str "feat/my_branch!!", c⟩ = some (str "featmybranch") := by
  refine ⟨?_, fun c => rfl⟩
  rw [SanitizeName_eq, Trim_eq_stripHyphens]
  rfl

/-! ## Theorems: labels -/

theorem containsLabel_loop_iff (name : GoString) (ls : List Label) :
    PullRequest.ContainsLabel.loop name ls = true ↔ ∃ l ∈ ls, l.Name = name := by
  induction ls with
  | nil => simp [PullRequest.ContainsLabel.loop]
  | cons l ls ih =>
    unfold PullRequest.ContainsLabel.loop
    by_cases h : l.Name = name
    · simp [h]
    · simp [h, ih]

/-- C2: `PullRequest.ContainsLabel(name)` is true exactly when some label of the pull
request has a name equal to `name`, byte for byte; with no labels it is false, and a
label `Bug` is not a label `bug`. -/
theorem PullRequest_ContainsLabel_iff (r : PullRequest) (name : GoString) :
    (r.ContainsLabel name = true ↔ ∃ l ∈ r.Labels, l.Name = name)
      ∧ PullRequest.ContainsLabel { r with Labels := [] } name = false
      ∧ PullRequest.ContainsLabel { r with Labels := [⟨1, str "Bug"⟩] } (str "bug") = false := by
  refine ⟨containsLabel_loop_iff name r.Labels, rfl, ?_⟩
  simp only [PullRequest.ContainsLabel, PullRequest.ContainsLabel.loop]
  decide

/-- C10: `PullRequests.ContainsLabel(name)` returns the first pull request of the sequence
that contains the label, with `true`; when there is none it returns the zero
`PullRequest` with `false`; the boolean is true exactly when some pull request of the
sequence contains the label. -/
theorem PullRequests_ContainsLabel_first (rr : PullRequests) (name : GoString) :
    PullRequests.ContainsLabel rr name
        = (match rr.find? (fun r => r.ContainsLabel name) with
          | some r => (r, true)
          | none => (PullRequest.zero, false))
      ∧ ((PullRequests.ContainsLabel rr name).2 = true
          ↔ ∃ r ∈ rr, r.ContainsLabel name = true) := by
  induction rr with
  | nil => simp [PullRequests.ContainsLabel]
  | cons r rr ih =>
    unfold PullRequests.ContainsLabel
    by_cases h : r.ContainsLabel name = true
    · simp [h]
    · simp only [h, if_false, List.find?_cons, List.mem_cons, exists_eq_or_imp, false_or]
      simpa [h] using ih

/-! ## Theorems: the query string -/

theorem String_some (o : ListPullRequestOptions) :
    ListPullRequestOptions.String (some o) = List.intercalate (str "&") (expectedPairs o) := by
  obtain ⟨s, h, b, so, d⟩ := o
  have ks : str "state" = [115, 116, 97, 116, 101] := by decide
  have kh : str "head" = [104, 101, 97, 100] := by decide
  have kb : str "base" = [98, 97, 115, 101] := by decide
  have kso : str "sort" = [115, 111, 114, 116] := by decide
  have kd : str "direction" = [100, 105, 114, 101, 99, 116, 105, 111, 110] := by decide
  have ke : str "=" = [61] := by decide
  have qs : QueryEscape [115, 116, 97, 116, 101] = [115, 116, 97, 116, 101] := by decide
  have qh : QueryEscape [104, 101, 97, 100] = [104, 101, 97, 100] := by decide
  have qb : QueryEscape [98, 97, 115, 101] = [98, 97, 115, 101] := by decide
  have qso : QueryEscape [115, 111, 114, 116] = [115, 111, 114, 116] := by decide
  have qd : QueryEscape [100, 105, 114, 101, 99, 116, 105, 111, 110]
      = [100, 105, 114, 101, 99, 116, 105, 111, 110] := by decide
  have ka : str "&" = [38] := by decide
  rcases s with _ | ⟨s0, s⟩ <;> rcases h with _ | ⟨h0, h⟩ <;> rcases b with _ | ⟨b0, b⟩
    <;> rcases so with _ | ⟨so0, so⟩ <;> rcases d with _ | ⟨d0, d⟩
  all_goals
    simp +decide [ListPullRequestOptions.String, expectedPairs, Values.Add, Values.Encode,
      Values.get, sortKeys, insertKey, strLe, ks, kh, kb, kso, kd, ke, ka,
      qs, qh, qb, qso, qd, List.intercalate]

theorem upperhex_getD (i : Nat) (c : UInt8) (hc : c = 0x26 ∨ c = 0x3D) :
    upperhex.getD i 0 ≠ c := by
  by_cases h : i < 16
  · have key : ∀ j : Nat, j < 16 → upperhex.getD j 0 ≠ 0x26 ∧ upperhex.getD j 0 ≠ 0x3D := by
      decide
    rcases hc with rfl | rfl
    · exact (key i h).1
    · exact (key i h).2
  · have hl : upperhex.length ≤ i := by
      have : upperhex.length = 16 := by decide
      omega
    rw [List.getD_eq_default _ _ hl]
    rcases hc with rfl | rfl <;> decide

theorem QueryEscape_no_separator (v : GoString) (c : UInt8) (hc : c = 0x26 ∨ c = 0x3D) :
    c ∉ QueryEscape v := by
  intro hm
  unfold QueryEscape escape at hm
  rw [List.mem_flatMap] at hm
  obtain ⟨b, _, hb⟩ := hm
  have e1 : shouldEscape 0x26 Encoding.encodeQueryComponent = true := by decide
  have e2 : shouldEscape 0x3D Encoding.encodeQueryComponent = true := by decide
  split_ifs at hb with h1 h2
  · simp only [List.mem_singleton] at hb
    rcases hc with rfl | rfl <;> simp at hb
  · simp only [List.mem_cons, List.mem_singleton, List.not_mem_nil, or_false] at hb
    rcases hb with hb | hb | hb
    · rcases hc with rfl | rfl <;> simp at hb
    · exact upperhex_getD _ c hc hb.symm
    · exact upperhex_getD _ c hc hb.symm
  · simp only [List.mem_singleton] at hb
    subst hb
    rcases hc with rfl | rfl
    · exact h2 e1
    · exact h2 e2

/-- C3: the query string of a nil configuration is empty; otherwise it is the `&`-joined
list of one `key=QueryEscape(value)` pair for each of `base`, `direction`, `head`, `sort`,
`state` whose field is not empty, and nothing else; an escaped value holds neither `&`
nor `=`, so the pairs are exactly the `&`-separated pieces. -/
theorem ListPullRequestOptions_String_pairs :
    ListPullRequestOptions.String none = []
      ∧ (∀ o : ListPullRequestOptions,
          ListPullRequestOptions.String (some o)
            = List.intercalate (str "&") (expectedPairs o))
      ∧ (∀ v : GoString, 0x26 ∉ QueryEscape v ∧ 0x3D ∉ QueryEscape v) :=
  ⟨rfl, String_some, fun v =>
    ⟨QueryEscape_no_separator v _ (Or.inl rfl), QueryEscape_no_separator v _ (Or.inr rfl)⟩⟩

/-! ## Theorems: client construction -/

/-- The call of `main`, `NewClient("https://api.github.com/", token, "Codonaut")`,
succeeds and builds `Client.sample`. -/
theorem NewClient_main :
    NewClient (str "https://api.github.com/")
        (str "Basic Q29kb25hdXQ6ckJDd0J2ZEhwdmlBQndUWENtY3RnUEcz") (str "Codonaut")
      = Except.ok Client.sample := by
  rfl

/-- C4, as stated, fails both ways: `/?` lacks a trailing slash and `NewClient` accepts it
(its parsed path is `/`); `:/` and `a#/` have a trailing slash and `NewClient` rejects
them (`url.Parse` rejects the first, the parsed path of the second is `a`). -/
theorem NewClient_trailing_slash_counterexample :
    (HasSuffix (str "/?") (str "/") = false
        ∧ ∃ c, NewClient (str "/?") (str "t") (str "u") = Except.ok c)
      ∧ (HasSuffix (str ":/") (str "/") = true
        ∧ ∃ e, NewClient (str ":/") (str "t") (str "u") = Except.error e)
      ∧ (HasSuffix (str "a#/") (str "/") = true
        ∧ ∃ e, NewClient (str "a#/") (str "t") (str "u") = Except.error e) := by
  refine ⟨⟨by decide, _, rfl⟩, ⟨by decide, _, rfl⟩, ⟨by decide, _, rfl⟩⟩

/-- C4, amended: `NewClient` returns a client exactly when `url.Parse` accepts the base
URL and the path of the parsed URL ends in `/`; the client then holds the parsed URL as
`BaseURL`, the token and the user name.  Otherwise it returns an error and no client: the
error of `url.Parse`, or the trailing-slash error naming the base URL. -/
theorem NewClient_iff_parsed_path (baseURL accessToken username : GoString) :
    (∀ c, NewClient baseURL accessToken username = Except.ok c ↔
        ∃ u, Parse baseURL = Except.ok u ∧ HasSuffix u.Path (str "/") = true
          ∧ c = ⟨accessToken, HTTPClient.DefaultClient, username, u⟩)
      ∧ (∀ e, NewClient baseURL accessToken username = Except.error e ↔
        (Parse baseURL = Except.error e
          ∨ ∃ u, Parse baseURL = Except.ok u ∧ HasSuffix u.Path (str "/") = false
            ∧ e = Error.errorf (str "baseURL must have a trailing slash, but %q does not")
                [baseURL])) := by
  unfold NewClient
  cases hp : Parse baseURL with
  | error err =>
    dsimp only
    constructor
    · intro c
      constructor
      · intro h
        cases h
      · rintro ⟨u, hu, _⟩
        cases hu
    · intro e
      constructor
      · intro h
        cases h
        exact Or.inl rfl
      · rintro (h | ⟨u, hu, _⟩)
        · cases h
          rfl
        · cases hu
  | ok u =>
    dsimp only
    cases hs : HasSuffix u.Path (str "/")
    · simp only [Bool.not_false, if_true]
      constructor
      · intro c
        constructor
        · intro h
          cases h
        · rintro ⟨v, hv, hs2, _⟩
          cases hv
          rw [hs] at hs2
          cases hs2
      · intro e
        constructor
        · intro h
          cases h
          exact Or.inr ⟨u, rfl, hs, rfl⟩
        · rintro (h | ⟨v, _, _, rfl⟩)
          · cases h
          · rfl
    · simp only [Bool.not_true, Bool.false_eq_true, if_false]
      constructor
      · intro c
        constructor
        · intro h
          cases h
          exact ⟨u, rfl, hs, rfl⟩
        · rintro ⟨v, hv, _, rfl⟩
          cases hv
          rfl
      · intro e
        constructor
        · intro h
          cases h
        · rintro (h | ⟨v, hv, hs2, _⟩)
          · cases h
          · cases hv
            rw [hs] at hs2
            cases hs2

/-! ## Theorems: requests and responses -/

/-- C6: after a round trip that succeeded, with a destination that is not the nil
interface, `Client.Do` returns no error and leaves the destination as it was when the
body is empty; and every error of the decoder other than `io.EOF` is returned. -/
theorem Do_empty_body {α : Type} (c : Client) (tr : Transport) (j : JSON α) (ctx : Context)
    (req : Request) (res : Response) (v : Dest α)
    (hrt : tr.RoundTrip req = Except.ok res) (hv : v ≠ Dest.nilInterface) :
    (res.Body = [] → c.Do tr j ctx req v = (v, none))
      ∧ (∀ e, (Decode j res.Body v).2 = some e → e ≠ Error.EOF →
          (c.Do tr j ctx req v).2 = some e) := by
  unfold Client.Do
  rw [hrt]
  dsimp only
  constructor
  · intro hb
    cases v with
    | nilInterface => exact absurd rfl hv
    | value x => simp [Decode, hb]
    | nilPointer => simp [Decode, hb]
    | pointer x => simp [Decode, hb]
  · intro e he hne
    cases v with
    | nilInterface => exact absurd rfl hv
    | value x =>
      dsimp only
      rcases hd : Decode j res.Body (Dest.value x) with ⟨w, _ | err⟩
      · rw [hd] at he
        cases he
      · rw [hd] at he
        cases he
        simp [hne]
    | nilPointer =>
      dsimp only
      rcases hd : Decode j res.Body (Dest.nilPointer : Dest α) with ⟨w, _ | err⟩
      · rw [hd] at he
        cases he
      · rw [hd] at he
        cases he
        simp [hne]
    | pointer x =>
      dsimp only
      rcases hd : Decode j res.Body (Dest.pointer x) with ⟨w, _ | err⟩
      · rw [hd] at he
        cases he
      · rw [hd] at he
        cases he
        simp [hne]

/-- Witness of C6: a round trip that answers with an empty body, and one whose body the
decoder refuses. -/
theorem Do_empty_body_witness :
    Client.Do Client.sample (Transport.const (Except.ok ⟨[]⟩)) JSON.samplePulls ⟨none⟩
        Request.samplePulls (Dest.pointer [PullRequest.zero])
        = (Dest.pointer [PullRequest.zero], none)
      ∧ (Client.Do Client.sample (Transport.const (Except.ok ⟨str "oops"⟩)) JSON.samplePulls
          ⟨none⟩ Request.samplePulls (Dest.pointer [])).2 = some (Error.other 0) :=
  ⟨(Do_empty_body Client.sample (Transport.const (Except.ok ⟨[]⟩)) JSON.samplePulls ⟨none⟩
      Request.samplePulls ⟨[]⟩ (Dest.pointer [PullRequest.zero]) rfl (by simp)).1 rfl,
    (Do_empty_body Client.sample (Transport.const (Except.ok ⟨str "oops"⟩)) JSON.samplePulls
      ⟨none⟩ Request.samplePulls ⟨str "oops"⟩ (Dest.pointer []) rfl (by simp)).2
      (Error.other 0) (by decide) (by simp)⟩

/-- C7: when the round trip fails, `Client.Do` returns `ctx.Err()` if the context is
done and the error of the round trip otherwise; the destination is as before. -/
theorem Do_round_trip_fails {α : Type} (c : Client) (tr : Transport) (j : JSON α)
    (ctx : Context) (req : Request) (v : Dest α) (err : Error)
    (hrt : tr.RoundTrip req = Except.error err) :
    (∀ ctxErr, ctx.Err = some ctxErr → c.Do tr j ctx req v = (v, some ctxErr))
      ∧ (ctx.Err = none → c.Do tr j ctx req v = (v, some err)) := by
  unfold Client.Do
  rw [hrt]
  dsimp only
  constructor
  · intro ctxErr h
    rw [h]
  · intro h
    rw [h]

/-- Witness of C7: a failed round trip under a cancelled context, and under a live one. -/
theorem Do_round_trip_fails_witness :
    Client.Do Client.sample (Transport.const (Except.error (Error.other 7))) JSON.samplePulls
        ⟨some Error.Canceled⟩ Request.samplePulls (Dest.pointer [PullRequest.zero])
        = (Dest.pointer [PullRequest.zero], some Error.Canceled)
      ∧ Client.Do Client.sample (Transport.const (Except.error (Error.other 7)))
          JSON.samplePulls ⟨none⟩ Request.samplePulls (Dest.pointer [PullRequest.zero])
        = (Dest.pointer [PullRequest.zero], some (Error.other 7)) :=
  ⟨(Do_round_trip_fails Client.sample (Transport.const (Except.error (Error.other 7)))
      JSON.samplePulls ⟨some Error.Canceled⟩ Request.samplePulls
      (Dest.pointer [PullRequest.zero]) (Error.other 7) rfl).1 Error.Canceled rfl,
    (Do_round_trip_fails Client.sample (Transport.const (Except.error (Error.other 7)))
      JSON.samplePulls ⟨none⟩ Request.samplePulls
      (Dest.pointer [PullRequest.zero]) (Error.other 7) rfl).2 rfl⟩

/-- C5 fails on the code: `ListComments` never returns a comment, and when the round
trip succeeds with a body that holds a JSON value it returns the error
`InvalidUnmarshalError`, the destination handed to the decoder being a slice and not a
pointer. -/
theorem ListComments_returns_no_comment (c : Client) (lib : Lib) (tr : Transport)
    (j : JSON (List Comment)) (ctx : Context) (owner repo : GoString) (number : Int) :
    (c.ListComments lib tr j ctx owner repo number).1 = []
      ∧ (∀ req res raw,
          c.NewRequest lib (str "GET") (commentsPath owner repo number) none = Except.ok req →
          tr.RoundTrip req = Except.ok res → res.Body ≠ [] →
          j.readValue res.Body = Except.ok raw →
          c.ListComments lib tr j ctx owner repo number
            = ([], some (Error.InvalidUnmarshalError j.typeName))) := by
  constructor
  · unfold Client.ListComments
    dsimp only
    split
    · rfl
    · split <;> rfl
  · intro req res raw hreq hrt hb hrv
    unfold Client.ListComments
    dsimp only
    rw [hreq]
    dsimp only
    have hdo : c.Do tr j ctx req (Dest.value ([] : List Comment))
        = (Dest.value [], some (Error.InvalidUnmarshalError j.typeName)) := by
      unfold Client.Do
      rw [hrt]
      simp [Decode, hb, hrv]
    rw [hdo]

/-- Witness of C5: a round trip that succeeds with the body `[\x7b\x7d]`, a JSON array
of one comment. -/
theorem ListComments_returns_no_comment_witness :
    Client.ListComments Client.sample Lib.sample
        (Transport.const (Except.ok ⟨str "[\x7b\x7d]"⟩)) JSON.sampleComments ⟨none⟩
        (str "o") (str "r") 1
      = ([], some (Error.InvalidUnmarshalError (str "[]main.Comment"))) :=
  (ListComments_returns_no_comment Client.sample Lib.sample
    (Transport.const (Except.ok ⟨str "[\x7b\x7d]"⟩)) JSON.sampleComments ⟨none⟩
    (str "o") (str "r") 1).2
    ⟨str "GET", str "https://api.github.com/repos/o/r/issues/1/comments",
      [(str "Accept", str "vnd.github.v3+json"), (str "User-Agent", str "autoship"),
        (str "Authorization", str "Basic Q29kb25hdXQ6ckJDd0J2ZEhwdmlBQndUWENtY3RnUEcz")], none⟩
    ⟨str "[\x7b\x7d]"⟩ (str "[\x7b\x7d]") rfl rfl (by decide) rfl

/-- C9: with nil options the path handed to the request builder is
`repos/{owner}/{repo}/pulls?`, with nothing after the question mark; an error of the
request builder or of `Client.Do` is returned with no pull requests (for a failed round
trip that is its error, or `ctx.Err()` when the context is done); and when the round
trip succeeds and the body decodes, the decoded pull requests are returned with no
error. -/
theorem ListPullRequests_nil_options (c : Client) (lib : Lib) (tr : Transport)
    (j : JSON (List PullRequest)) (ctx : Context) (owner repo : GoString) :
    pullsPath owner repo none = str "repos/" ++ owner ++ str "/" ++ repo ++ str "/pulls?"
      ∧ pullsPath (str "Codonaut") (str "badgermole") none
          = str "repos/Codonaut/badgermole/pulls?"
      ∧ (∀ err,
          c.NewRequest lib (str "GET")
            (str "repos/" ++ owner ++ str "/" ++ repo ++ str "/pulls?") none
              = Except.error err →
          c.ListPullRequests lib tr j ctx owner repo none = ([], some err))
      ∧ (∀ req,
          c.NewRequest lib (str "GET")
            (str "repos/" ++ owner ++ str "/" ++ repo ++ str "/pulls?") none
              = Except.ok req →
          (∀ err, (c.Do tr j ctx req (Dest.pointer ([] : List PullRequest))).2 = some err →
              c.ListPullRequests lib tr j ctx owner repo none = ([], some err))
            ∧ (∀ err, tr.RoundTrip req = Except.error err →
              c.ListPullRequests lib tr j ctx owner repo none
                = ([], some (ctx.Err.getD err)))
            ∧ (∀ res prs, tr.RoundTrip req = Except.ok res →
              Decode j res.Body (Dest.pointer []) = (Dest.pointer prs, none) →
              c.ListPullRequests lib tr j ctx owner repo none = (prs, none))) := by
  have hp : pullsPath owner repo none
      = str "repos/" ++ owner ++ str "/" ++ repo ++ str "/pulls?" := by
    simp [pullsPath, ListPullRequestOptions.String]
  refine ⟨hp, by decide, ?_, ?_⟩
  · intro err h
    unfold Client.ListPullRequests
    dsimp only
    rw [hp, h]
  · intro req h
    have hdo : ∀ d e, c.Do tr j ctx req (Dest.pointer ([] : List PullRequest)) = (d, some e) →
        c.ListPullRequests lib tr j ctx owner repo none = ([], some e) := by
      intro d e hd
      unfold Client.ListPullRequests
      dsimp only
      rw [hp, h]
      dsimp only
      rw [hd]
      cases d <;> rfl
    refine ⟨?_, ?_, ?_⟩
    · intro err he
      rcases hd : c.Do tr j ctx req (Dest.pointer ([] : List PullRequest)) with ⟨d, e⟩
      rw [hd] at he
      cases he
      exact hdo d err hd
    · intro err hrt
      apply hdo (Dest.pointer [])
      unfold Client.Do
      rw [hrt]
      cases ctx.Err <;> rfl
    · intro res prs hrt hdec
      unfold Client.ListPullRequests
      dsimp only
      rw [hp, h]
      dsimp only
      have hd : c.Do tr j ctx req (Dest.pointer ([] : List PullRequest))
          = (Dest.pointer prs, none) := by
        unfold Client.Do
        rw [hrt]
        dsimp only
        rw [hdec]
      rw [hd]

/-- Witness of C9: the run of `main`, `ListPullRequests(ctx, "Codonaut", "badgermole",
nil)`, on a round trip that fails, and on one that answers `[\x7b\x7d]`. -/
theorem ListPullRequests_nil_options_witness :
    Client.ListPullRequests Client.sample Lib.sample
        (Transport.const (Except.error (Error.other 7))) JSON.samplePulls ⟨none⟩
        (str "Codonaut") (str "badgermole") none = ([], some (Error.other 7))
      ∧ Client.ListPullRequests Client.sample Lib.sample
          (Transport.const (Except.ok ⟨str "[\x7b\x7d]"⟩)) JSON.samplePulls ⟨none⟩
          (str "Codonaut") (str "badgermole") none = ([PullRequest.zero], none) :=
  ⟨((ListPullRequests_nil_options Client.sample Lib.sample
      (Transport.const (Except.error (Error.other 7))) JSON.samplePulls ⟨none⟩
      (str "Codonaut") (str "badgermole")).2.2.2 Request.samplePulls rfl).2.1
      (Error.other 7) rfl,
    ((ListPullRequests_nil_options Client.sample Lib.sample
      (Transport.const (Except.ok ⟨str "[\x7b\x7d]"⟩)) JSON.samplePulls ⟨none⟩
      (str "Codonaut") (str "badgermole")).2.2.2 Request.samplePulls rfl).2.2
      ⟨str "[\x7b\x7d]"⟩ [PullRequest.zero] rfl (by decide)⟩


end Badgermole
